import Mathlib

/-!
Verification of the WriteStream ledger contract
(src/blockchain/contracts/Writestream.sol) against its specification.

The contract's storage and public functions are shallowly embedded here.
Addresses are modelled as natural numbers (0 is the zero address), uint256
values as `Nat` (the counters involved cannot overflow in any reachable
execution, so unbounded naturals are a faithful model), Solidity mappings
as total functions returning the zero value for unset keys, and `require`
failures / EVM reverts as the `error` branch of `Except`: a revert discards
every intermediate write and leaves the pre-call storage in force, which
the wrapper `exec` makes explicit by returning the pre-state on error.
Monetary transfers performed by a call are returned as an explicit list of
(recipient, amount) pairs; whether the low-level `transfer` to the author
succeeds is an environmental condition, passed in as the boolean
`transferOk`.
-/

namespace Writestream

/-- Article record mirroring the Solidity struct `Article`. -/
structure Article where
  id : Nat
  author : Nat
  title : String
  ipfsHash : String
  price : Nat
  upvotes : Nat
  downvotes : Nat
deriving Repr, DecidableEq

/-- Zero-valued `Article`, what a Solidity mapping returns for an unset key. -/
def zeroArticle : Article := ⟨0, 0, "", "", 0, 0, 0⟩

/-- Contract storage: `articleCount`, `articles`, `hasAccess`, `hasVoted`,
`userVote`, exactly the state variables of the contract. -/
structure State where
  articleCount : Nat
  articles : Nat → Article
  hasAccess : Nat → Nat → Bool
  hasVoted : Nat → Nat → Bool
  userVote : Nat → Nat → Bool

/-- Storage at deployment: count 0, every mapping at its zero value. -/
def initState : State :=
  ⟨0, fun _ => zeroArticle, fun _ _ => false, fun _ _ => false, fun _ _ => false⟩

/-- Revert reasons of the contract's `require` statements, plus the reason-less
revert of a failed low-level `transfer` to the author. -/
inductive Err where
  | articleIsFree
  | insufficientPayment
  | mustPurchase
  | alreadyVoted
  | transferFailed
deriving Repr, DecidableEq

/-- Exact reason strings of the contract's `require` statements
(a failed `transfer` reverts with an empty reason). -/
def Err.message : Err → String
  | .articleIsFree => "Article is free"
  | .insufficientPayment => "Insufficient payment"
  | .mustPurchase => "Must purchase article to vote"
  | .alreadyVoted => "Already voted on this article"
  | .transferFailed => ""

/-- A monetary transfer performed by a call: (recipient, amount). -/
abbrev Transfer := Nat × Nat

/-- Test whether a call outcome is a revert. -/
def failed {α : Type} : Except Err α → Bool
  | .error _ => true
  | .ok _ => false

/-- Embedding of `publishArticle(title, ipfsHash, price)`: increments
`articleCount`, stores the new record at the new count with the caller as
author and zero vote counters. The function has no `require`, so it is total;
the second component is the article id carried by the emitted
`ArticlePublished` event. -/
def publishArticle (s : State) (sender : Nat) (title ipfsHash : String) (price : Nat) :
    State × Nat :=
  let newCount := s.articleCount + 1
  let a : Article := ⟨newCount, sender, title, ipfsHash, price, 0, 0⟩
  (⟨newCount, fun j => if j = newCount then a else s.articles j,
    s.hasAccess, s.hasVoted, s.userVote⟩, newCount)

/-- Embedding of `tipWriter(articleId)`: forwards the whole attached value to
the stored author; reverts if that transfer fails. -/
def tipWriter (s : State) (sender articleId msgValue : Nat) (transferOk : Bool) :
    Except Err (State × List Transfer) :=
  let article := s.articles articleId
  let _ := sender
  if transferOk then .ok (s, [(article.author, msgValue)])
  else .error .transferFailed

/-- State built by a successful `purchaseArticle` call: only the buyer's
access flag for the bought article is set. -/
def grantAccess (s : State) (sender articleId : Nat) : State :=
  ⟨s.articleCount, s.articles,
   fun i a => if i = articleId ∧ a = sender then true else s.hasAccess i a,
   s.hasVoted, s.userVote⟩

/-- Embedding of `purchaseArticle(articleId)`: requires a positive price and
`msg.value >= price`, sets the access flag, then forwards the whole attached
value to the author. In the source the access flag is written before the
transfer; a failing transfer reverts the call, discarding that intermediate
write, which the embedding renders by producing `grantAccess` only on the
success branch. -/
def purchaseArticle (s : State) (sender articleId msgValue : Nat) (transferOk : Bool) :
    Except Err (State × List Transfer) :=
  let article := s.articles articleId
  if article.price = 0 then .error .articleIsFree
  else if msgValue < article.price then .error .insufficientPayment
  else if transferOk then
    .ok (grantAccess s sender articleId, [(article.author, msgValue)])
  else .error .transferFailed

/-- Embedding of `checkAccess(articleId, user)`: free articles are accessible
to everyone, paid articles require the stored access flag. -/
def checkAccess (s : State) (articleId user : Nat) : Bool :=
  if (s.articles articleId).price = 0 then true
  else s.hasAccess articleId user

/-- Embedding of `isArticleFree(articleId)`. -/
def isArticleFree (s : State) (articleId : Nat) : Bool :=
  (s.articles articleId).price == 0

/-- Article with one vote counter incremented, the other fields untouched. -/
def bumpVotes (a : Article) (isUpvote : Bool) : Article :=
  if isUpvote then
    ⟨a.id, a.author, a.title, a.ipfsHash, a.price, a.upvotes + 1, a.downvotes⟩
  else
    ⟨a.id, a.author, a.title, a.ipfsHash, a.price, a.upvotes, a.downvotes + 1⟩

/-- State built by a successful `voteArticle` call: vote flags set for the
caller, exactly one counter of the voted article incremented. -/
def voteResult (s : State) (sender articleId : Nat) (isUpvote : Bool) : State :=
  ⟨s.articleCount,
   fun j => if j = articleId then bumpVotes (s.articles articleId) isUpvote
            else s.articles j,
   s.hasAccess,
   fun i x => if i = articleId ∧ x = sender then true else s.hasVoted i x,
   fun i x => if i = articleId ∧ x = sender then isUpvote else s.userVote i x⟩

/-- Embedding of `voteArticle(articleId, isUpvote)`: for a paid article the
caller must hold the access flag; a caller may vote at most once; on success
the vote flags are set and exactly one counter of the article is incremented. -/
def voteArticle (s : State) (sender articleId : Nat) (isUpvote : Bool) :
    Except Err State :=
  let article := s.articles articleId
  if 0 < article.price ∧ s.hasAccess articleId sender = false then
    .error .mustPurchase
  else if s.hasVoted articleId sender = true then
    .error .alreadyVoted
  else
    .ok (voteResult s sender articleId isUpvote)

/-- Embedding of `getArticleVotes(articleId)`. -/
def getArticleVotes (s : State) (articleId : Nat) : Nat × Nat :=
  ((s.articles articleId).upvotes, (s.articles articleId).downvotes)

/-- Embedding of `hasUserVoted(articleId, user)`: a pure read of `hasVoted`. -/
def hasUserVoted (s : State) (articleId user : Nat) : Bool :=
  s.hasVoted articleId user

/-- Embedding of `getUserVote(articleId, user)`: a pure read of `userVote`. -/
def getUserVote (s : State) (articleId user : Nat) : Bool :=
  s.userVote articleId user

/-- A state-mutating call to the contract, with its caller, attached value
where payable, and the environmental outcome of the transfer to the author. -/
inductive Op where
  | publish (sender : Nat) (title ipfsHash : String) (price : Nat)
  | tip (sender articleId msgValue : Nat) (transferOk : Bool)
  | purchase (sender articleId msgValue : Nat) (transferOk : Bool)
  | vote (sender articleId : Nat) (isUpvote : Bool)

/-- Post-state of a call: the new storage on success, the unchanged pre-call
storage on revert (EVM atomicity). -/
def exec (s : State) : Op → State
  | .publish sender t h p => (publishArticle s sender t h p).1
  | .tip sender i v ok =>
      match tipWriter s sender i v ok with
      | .ok (s', _) => s'
      | .error _ => s
  | .purchase sender i v ok =>
      match purchaseArticle s sender i v ok with
      | .ok (s', _) => s'
      | .error _ => s
  | .vote sender i up =>
      match voteArticle s sender i up with
      | .ok s' => s'
      | .error _ => s

/-- Whether a call reverts (a publish never does). -/
def opFailed (s : State) : Op → Bool
  | .publish _ _ _ _ => false
  | .tip sender i v ok => failed (tipWriter s sender i v ok)
  | .purchase sender i v ok => failed (purchaseArticle s sender i v ok)
  | .vote sender i up => failed (voteArticle s sender i up)

/-- Post-state of a sequence of calls. -/
def execList (s : State) : List Op → State
  | [] => s
  | op :: ops => execList (exec s op) ops

/-- Storage states reachable from deployment by some sequence of calls. -/
inductive Reachable : State → Prop where
  | ini : Reachable initState
  | step : ∀ s op, Reachable s → Reachable (exec s op)

/-! ### Helper lemmas shared by the claim theorems -/

/-- Characterization of a successful `purchaseArticle` call. -/
lemma purchase_ok_iff (s : State) (sender j v : Nat) (ok : Bool)
    (s' : State) (ts : List Transfer) :
    purchaseArticle s sender j v ok = .ok (s', ts) ↔
      (0 < (s.articles j).price ∧ (s.articles j).price ≤ v ∧ ok = true ∧
       s' = grantAccess s sender j ∧ ts = [((s.articles j).author, v)]) := by
  by_cases h0 : (s.articles j).price = 0
  · simp [purchaseArticle, h0]
  · by_cases hlt : v < (s.articles j).price
    · simp only [purchaseArticle, if_neg h0, if_pos hlt]
      constructor
      · intro hc; cases hc
      · rintro ⟨-, hle, -⟩; omega
    · cases ok
      · simp [purchaseArticle, if_neg h0, if_neg hlt]
      · simp [purchaseArticle, h0, hlt, Nat.pos_of_ne_zero h0, Nat.le_of_not_lt hlt]
        constructor <;> rintro ⟨h1, h2⟩ <;> exact ⟨h1.symm, h2.symm⟩

/-- Characterization of a successful `voteArticle` call. -/
lemma vote_ok_iff (s : State) (sender j : Nat) (up : Bool) (s' : State) :
    voteArticle s sender j up = .ok s' ↔
      (((s.articles j).price = 0 ∨ s.hasAccess j sender = true) ∧
       s.hasVoted j sender = false ∧ s' = voteResult s sender j up) := by
  by_cases hpre : 0 < (s.articles j).price ∧ s.hasAccess j sender = false
  · simp only [voteArticle, if_pos hpre]
    constructor
    · intro hc; cases hc
    · rintro ⟨h1, -, -⟩
      rcases h1 with h1 | h1
      · have := hpre.1; omega
      · rw [h1] at hpre; cases hpre.2
  · by_cases hv : s.hasVoted j sender = true
    · simp [voteArticle, if_neg hpre, hv]
    · simp only [voteArticle, if_neg hpre, if_neg hv, Except.ok.injEq]
      constructor
      · intro h1
        refine ⟨?_, by simpa using hv, h1.symm⟩
        rcases not_and_or.mp hpre with h2 | h2
        · exact Or.inl (by omega)
        · right
          cases hb : s.hasAccess j sender
          · exact absurd hb h2
          · rfl
      · rintro ⟨-, -, h1⟩
        exact h1.symm

/-- Access flags are monotone: no call ever clears a set `hasAccess` entry. -/
lemma hasAccess_mono (s : State) (op : Op) (i a : Nat)
    (h : s.hasAccess i a = true) : (exec s op).hasAccess i a = true := by
  cases op with
  | publish sender t hsh p => simpa [exec, publishArticle] using h
  | tip sender j v ok =>
      cases ok <;> simp [exec, tipWriter] <;> exact h
  | purchase sender j v ok =>
      simp only [exec]
      rcases hE : purchaseArticle s sender j v ok with e | ⟨s', ts⟩
      · exact h
      · rw [purchase_ok_iff] at hE
        obtain ⟨-, -, -, hs', -⟩ := hE
        subst hs'
        simp only [grantAccess]
        split
        · rfl
        · exact h
  | vote sender j up =>
      simp only [exec]
      rcases hE : voteArticle s sender j up with e | s'
      · exact h
      · rw [vote_ok_iff] at hE
        obtain ⟨-, -, hs'⟩ := hE
        subst hs'
        exact h

/-- Access flags stay set across any sequence of calls. -/
lemma hasAccess_mono_list (s : State) (ops : List Op) (i a : Nat)
    (h : s.hasAccess i a = true) : (execList s ops).hasAccess i a = true := by
  induction ops generalizing s with
  | nil => exact h
  | cons op ops ih => exact ih (exec s op) (hasAccess_mono s op i a h)

/-- A set access flag makes `checkAccess` true regardless of the price. -/
lemma checkAccess_of_hasAccess (s : State) (i a : Nat)
    (h : s.hasAccess i a = true) : checkAccess s i a = true := by
  unfold checkAccess
  split <;> simp [h]

/-! ### Claim theorems -/

/-- C1: `publishArticle` always succeeds (no revert path); the id it reports
in its `ArticlePublished` event equals the pre-call `articleCount + 1`;
`articleCount` increments by exactly 1; and the record stored at that id has
the caller as author, the given title, content hash and price, and both vote
counters at 0. -/
theorem publish_correct (s : State) (sender : Nat) (title ipfsHash : String) (price : Nat) :
    opFailed s (.publish sender title ipfsHash price) = false ∧
    (publishArticle s sender title ipfsHash price).2 = s.articleCount + 1 ∧
    (publishArticle s sender title ipfsHash price).1.articleCount = s.articleCount + 1 ∧
    (publishArticle s sender title ipfsHash price).1.articles (s.articleCount + 1) =
      ⟨s.articleCount + 1, sender, title, ipfsHash, price, 0, 0⟩ := by
  refine ⟨rfl, rfl, rfl, ?_⟩
  simp [publishArticle]

/-- C3: for an article whose stored price is 0, `checkAccess` is true for
every account and `isArticleFree` is true; every `purchaseArticle` call on it
reverts with reason "Article is free" whatever the attached value, leaving
the state unchanged, so access and freeness also hold after the attempt. -/
theorem free_article_spec (s : State) (articleId : Nat)
    (hp : (s.articles articleId).price = 0) :
    (∀ account, checkAccess s articleId account = true) ∧
    isArticleFree s articleId = true ∧
    (∀ buyer msgValue tOk,
       purchaseArticle s buyer articleId msgValue tOk = .error .articleIsFree ∧
       Err.message .articleIsFree = "Article is free" ∧
       exec s (.purchase buyer articleId msgValue tOk) = s ∧
       (∀ account,
          checkAccess (exec s (.purchase buyer articleId msgValue tOk)) articleId account = true ∧
          isArticleFree (exec s (.purchase buyer articleId msgValue tOk)) articleId = true)) := by
  have hfail : ∀ buyer msgValue tOk,
      purchaseArticle s buyer articleId msgValue tOk = .error .articleIsFree := by
    intro buyer v t
    simp [purchaseArticle, hp]
  have hexec : ∀ buyer msgValue tOk,
      exec s (.purchase buyer articleId msgValue tOk) = s := by
    intro buyer v t
    simp [exec, hfail buyer v t]
  refine ⟨fun a => by simp [checkAccess, hp], by simp [isArticleFree, hp], ?_⟩
  intro buyer v t
  refine ⟨hfail buyer v t, rfl, hexec buyer v t, fun a => ?_⟩
  rw [hexec buyer v t]
  exact ⟨by simp [checkAccess, hp], by simp [isArticleFree, hp]⟩

/-- Witness for C3 at a concrete input: in the deployment state article 1 has
price 0, is free and accessible, and purchasing it reverts. -/
theorem free_article_spec_witness :
    checkAccess initState 1 42 = true ∧ isArticleFree initState 1 = true ∧
    purchaseArticle initState 42 1 5 true = .error .articleIsFree :=
  have h := free_article_spec initState 1 rfl
  ⟨h.1 42, h.2.1, (h.2.2 42 5 true).1⟩

/-- C5: a reverting call leaves the ledger storage exactly as it was: the
post-state of any failed `tipWriter`, `purchaseArticle` or `voteArticle`
call equals the pre-state in every component (`publishArticle` never
reverts). -/
theorem failed_call_state_unchanged (s : State) (op : Op)
    (h : opFailed s op = true) : exec s op = s := by
  cases op with
  | publish sender t hsh p => simp [opFailed] at h
  | tip sender j v ok =>
      simp only [opFailed] at h
      simp only [exec]
      rcases hE : tipWriter s sender j v ok with e | p
      · rfl
      · rw [hE] at h
        simp [failed] at h
  | purchase sender j v ok =>
      simp only [opFailed] at h
      simp only [exec]
      rcases hE : purchaseArticle s sender j v ok with e | p
      · rfl
      · rw [hE] at h
        simp [failed] at h
  | vote sender j up =>
      simp only [opFailed] at h
      simp only [exec]
      rcases hE : voteArticle s sender j up with e | s''
      · rfl
      · rw [hE] at h
        simp [failed] at h

/-- Witness for C5 at a concrete input: purchasing the (free, nonexistent)
article 1 in the deployment state reverts and leaves the state unchanged. -/
theorem failed_call_state_unchanged_witness :
    opFailed initState (Op.purchase 3 1 5 true) = true ∧
    exec initState (Op.purchase 3 1 5 true) = initState :=
  ⟨rfl, failed_call_state_unchanged initState (Op.purchase 3 1 5 true) rfl⟩

/-- C7: a successful `purchaseArticle` performs exactly one transfer, of the
entire attached value (overpayment included, no refund), to the stored
author, in the same call that sets the buyer's access flag; a successful
`tipWriter` performs exactly one transfer of the entire attached value to
the stored author. -/
theorem payment_forwarded_in_full (s : State) (sender articleId msgValue : Nat) (tOk : Bool) :
    (∀ s' ts, purchaseArticle s sender articleId msgValue tOk = .ok (s', ts) →
       ts = [((s.articles articleId).author, msgValue)] ∧
       s'.hasAccess articleId sender = true) ∧
    (∀ s' ts, tipWriter s sender articleId msgValue tOk = .ok (s', ts) →
       ts = [((s.articles articleId).author, msgValue)]) := by
  constructor
  · intro s' ts hE
    rw [purchase_ok_iff] at hE
    obtain ⟨-, -, -, hs', hts⟩ := hE
    subst hs'
    exact ⟨hts, by simp [grantAccess]⟩
  · intro s' ts hE
    cases tOk with
    | false => simp [tipWriter] at hE
    | true =>
        simp [tipWriter] at hE
        exact hE.2.symm

/-- Witness for C7 at a concrete input: after publishing article 1 with
price 10 and author 9, a purchase by account 3 attaching 12 forwards the
whole 12 to author 9 and sets the buyer's access flag. -/
theorem payment_forwarded_in_full_witness :
    [((9 : Nat), (12 : Nat))] =
      [(((exec initState (Op.publish 9 "A" "Qm1" 10)).articles 1).author, 12)] ∧
    (grantAccess (exec initState (Op.publish 9 "A" "Qm1" 10)) 3 1).hasAccess 1 3 = true :=
  (payment_forwarded_in_full (exec initState (Op.publish 9 "A" "Qm1" 10)) 3 1 12 true).1
    (grantAccess (exec initState (Op.publish 9 "A" "Qm1" 10)) 3 1) [(9, 12)] rfl

/-- C2: for an article with positive stored price: a purchase attaching less
than the price reverts with reason "Insufficient payment" and leaves the
state (hence `checkAccess` for the buyer) unchanged; a purchase attaching at
least the price, whose transfer to the author completes, succeeds, and
`checkAccess` for the buyer is true immediately afterwards and stays true
after every subsequent sequence of calls. -/
theorem purchase_paid_spec (s : State) (buyer articleId msgValue : Nat) (tOk : Bool)
    (hp : 0 < (s.articles articleId).price) :
    (msgValue < (s.articles articleId).price →
       purchaseArticle s buyer articleId msgValue tOk = .error .insufficientPayment ∧
       Err.message .insufficientPayment = "Insufficient payment" ∧
       exec s (.purchase buyer articleId msgValue tOk) = s) ∧
    ((s.articles articleId).price ≤ msgValue → tOk = true →
       opFailed s (.purchase buyer articleId msgValue tOk) = false ∧
       checkAccess (exec s (.purchase buyer articleId msgValue tOk)) articleId buyer = true ∧
       (∀ ops : List Op,
          checkAccess (execList (exec s (.purchase buyer articleId msgValue tOk)) ops)
            articleId buyer = true)) := by
  constructor
  · intro hlt
    have hfail : purchaseArticle s buyer articleId msgValue tOk =
        .error .insufficientPayment := by
      simp [purchaseArticle, hp.ne', hlt]
    exact ⟨hfail, rfl, by simp [exec, hfail]⟩
  · intro hle htOk
    subst htOk
    have hok : purchaseArticle s buyer articleId msgValue true =
        .ok (grantAccess s buyer articleId, [((s.articles articleId).author, msgValue)]) := by
      rw [purchase_ok_iff]
      exact ⟨hp, hle, rfl, rfl, rfl⟩
    have hexec : exec s (.purchase buyer articleId msgValue true) =
        grantAccess s buyer articleId := by
      simp [exec, hok]
    have hacc : (grantAccess s buyer articleId).hasAccess articleId buyer = true := by
      simp [grantAccess]
    refine ⟨by simp [opFailed, hok, failed], ?_, ?_⟩
    · rw [hexec]
      exact checkAccess_of_hasAccess _ _ _ hacc
    · intro ops
      rw [hexec]
      exact checkAccess_of_hasAccess _ _ _ (hasAccess_mono_list _ ops _ _ hacc)

/-- Witness for C2 at concrete inputs: with article 1 published at price 10,
a purchase attaching 5 reverts with "Insufficient payment", and a purchase
attaching 10 succeeds and grants access. -/
theorem purchase_paid_spec_witness :
    purchaseArticle (exec initState (Op.publish 9 "A" "Qm1" 10)) 3 1 5 true =
      Except.error Err.insufficientPayment ∧
    checkAccess
      (exec (exec initState (Op.publish 9 "A" "Qm1" 10)) (Op.purchase 3 1 10 true)) 1 3 = true :=
  ⟨((purchase_paid_spec (exec initState (Op.publish 9 "A" "Qm1" 10)) 3 1 5 true
      (by decide)).1 (by decide)).1,
   ((purchase_paid_spec (exec initState (Op.publish 9 "A" "Qm1" 10)) 3 1 10 true
      (by decide)).2 (by decide) rfl).2.1⟩

/-- C4: `voteArticle` reverts exactly when the article has positive price and
the caller holds no access flag (reason "Must purchase article to vote") or
the caller has already voted on that article (reason "Already voted on this
article"); on success it sets `hasVoted` for the caller, records the vote
direction in `userVote`, and increments exactly the chosen counter by 1,
leaving the other counter unchanged. -/
theorem vote_spec (s : State) (caller articleId : Nat) (isUpvote : Bool) :
    (failed (voteArticle s caller articleId isUpvote) = true ↔
       ((0 < (s.articles articleId).price ∧ s.hasAccess articleId caller = false) ∨
        s.hasVoted articleId caller = true)) ∧
    (0 < (s.articles articleId).price → s.hasAccess articleId caller = false →
       voteArticle s caller articleId isUpvote = .error .mustPurchase ∧
       Err.message .mustPurchase = "Must purchase article to vote") ∧
    (((s.articles articleId).price = 0 ∨ s.hasAccess articleId caller = true) →
       s.hasVoted articleId caller = true →
       voteArticle s caller articleId isUpvote = .error .alreadyVoted ∧
       Err.message .alreadyVoted = "Already voted on this article") ∧
    (∀ s', voteArticle s caller articleId isUpvote = .ok s' →
       s'.hasVoted articleId caller = true ∧
       s'.userVote articleId caller = isUpvote ∧
       (isUpvote = true →
          (s'.articles articleId).upvotes = (s.articles articleId).upvotes + 1 ∧
          (s'.articles articleId).downvotes = (s.articles articleId).downvotes) ∧
       (isUpvote = false →
          (s'.articles articleId).downvotes = (s.articles articleId).downvotes + 1 ∧
          (s'.articles articleId).upvotes = (s.articles articleId).upvotes)) := by
  refine ⟨?_, ?_, ?_, ?_⟩
  · by_cases hpre : 0 < (s.articles articleId).price ∧ s.hasAccess articleId caller = false
    · simp [voteArticle, if_pos hpre, failed, hpre]
    · by_cases hv : s.hasVoted articleId caller = true
      · simp [voteArticle, if_neg hpre, hv, failed]
      · simp [voteArticle, if_neg hpre, hv, failed, hpre]
  · intro hq hna
    exact ⟨by simp [voteArticle, if_pos (And.intro hq hna)], rfl⟩
  · intro hfree hv
    have hnpre : ¬(0 < (s.articles articleId).price ∧
        s.hasAccess articleId caller = false) := by
      rintro ⟨hq, hf⟩
      rcases hfree with h | h
      · omega
      · rw [h] at hf
        cases hf
    exact ⟨by simp [voteArticle, if_neg hnpre, hv], rfl⟩
  · intro s' hE
    rw [vote_ok_iff] at hE
    obtain ⟨-, -, hs'⟩ := hE
    subst hs'
    refine ⟨by simp [voteResult], by simp [voteResult], ?_, ?_⟩
    · intro hup
      subst hup
      simp [voteResult, bumpVotes]
    · intro hdn
      subst hdn
      simp [voteResult, bumpVotes]

/-- Witness for C4 at a concrete input: account 7 upvoting the free article 1
in the deployment state succeeds, sets the vote flag and yields upvote
count `0 + 1`. -/
theorem vote_spec_witness :
    (exec initState (Op.vote 7 1 true)).hasVoted 1 7 = true ∧
    ((exec initState (Op.vote 7 1 true)).articles 1).upvotes =
      (initState.articles 1).upvotes + 1 :=
  have h := (vote_spec initState 7 1 true).2.2.2 (exec initState (Op.vote 7 1 true)) rfl
  ⟨h.1, (h.2.2.1 rfl).1⟩

/-- C6: every call (successful or reverting) preserves the creation-time
fields (`id`, `author`, `title`, `ipfsHash`, `price`) of every existing
article, never clears a set `hasAccess` or `hasVoted` flag, and never
decreases an existing article's vote counters. -/
theorem exec_preserves_invariants (s : State) (op : Op) :
    (∀ i, 1 ≤ i → i ≤ s.articleCount →
       ((exec s op).articles i).id = (s.articles i).id ∧
       ((exec s op).articles i).author = (s.articles i).author ∧
       ((exec s op).articles i).title = (s.articles i).title ∧
       ((exec s op).articles i).ipfsHash = (s.articles i).ipfsHash ∧
       ((exec s op).articles i).price = (s.articles i).price) ∧
    (∀ i a, s.hasAccess i a = true → (exec s op).hasAccess i a = true) ∧
    (∀ i a, s.hasVoted i a = true → (exec s op).hasVoted i a = true) ∧
    (∀ i, 1 ≤ i → i ≤ s.articleCount →
       (s.articles i).upvotes ≤ ((exec s op).articles i).upvotes ∧
       (s.articles i).downvotes ≤ ((exec s op).articles i).downvotes) := by
  cases op with
  | publish sender t hsh p =>
      refine ⟨fun i h1 h2 => ?_, fun i a h => ?_, fun i a h => ?_, fun i h1 h2 => ?_⟩
      · have hne : ¬(i = s.articleCount + 1) := by omega
        simp [exec, publishArticle, hne]
      · simpa [exec, publishArticle] using h
      · simpa [exec, publishArticle] using h
      · have hne : ¬(i = s.articleCount + 1) := by omega
        simp [exec, publishArticle, hne]
  | tip sender j v ok =>
      have htip : exec s (.tip sender j v ok) = s := by
        cases ok <;> simp [exec, tipWriter]
      rw [htip]
      exact ⟨fun i h1 h2 => ⟨rfl, rfl, rfl, rfl, rfl⟩, fun i a h => h, fun i a h => h,
        fun i h1 h2 => ⟨le_refl _, le_refl _⟩⟩
  | purchase sender j v ok =>
      simp only [exec]
      rcases hE : purchaseArticle s sender j v ok with e | p
      · exact ⟨fun i h1 h2 => ⟨rfl, rfl, rfl, rfl, rfl⟩, fun i a h => h, fun i a h => h,
          fun i h1 h2 => ⟨le_refl _, le_refl _⟩⟩
      · rcases p with ⟨s', ts⟩
        rw [purchase_ok_iff] at hE
        obtain ⟨-, -, -, hs', -⟩ := hE
        subst hs'
        refine ⟨fun i h1 h2 => ⟨rfl, rfl, rfl, rfl, rfl⟩, fun i a h => ?_, fun i a h => h,
          fun i h1 h2 => ⟨le_refl _, le_refl _⟩⟩
        simp only [grantAccess]
        split
        · rfl
        · exact h
  | vote sender j up =>
      simp only [exec]
      rcases hE : voteArticle s sender j up with e | s'
      · exact ⟨fun i h1 h2 => ⟨rfl, rfl, rfl, rfl, rfl⟩, fun i a h => h, fun i a h => h,
          fun i h1 h2 => ⟨le_refl _, le_refl _⟩⟩
      · rw [vote_ok_iff] at hE
        obtain ⟨-, -, hs'⟩ := hE
        subst hs'
        refine ⟨fun i h1 h2 => ?_, fun i a h => h, fun i a h => ?_, fun i h1 h2 => ?_⟩
        · by_cases hij : i = j
          · subst hij
            cases up <;> simp [voteResult, bumpVotes]
          · simp [voteResult, hij]
        · simp only [voteResult]
          split
          · rfl
          · exact h
        · by_cases hij : i = j
          · subst hij
            cases up <;> simp [voteResult, bumpVotes]
          · simp [voteResult, hij]

/-- Witness for C6 at a concrete input: after publishing free article 1, a
vote on it keeps the author unchanged and does not decrease the upvote
counter. -/
theorem exec_preserves_invariants_witness :
    ((exec (exec initState (Op.publish 9 "A" "Qm1" 0)) (Op.vote 7 1 true)).articles 1).author =
      ((exec initState (Op.publish 9 "A" "Qm1" 0)).articles 1).author ∧
    ((exec initState (Op.publish 9 "A" "Qm1" 0)).articles 1).upvotes ≤
      ((exec (exec initState (Op.publish 9 "A" "Qm1" 0)) (Op.vote 7 1 true)).articles 1).upvotes :=
  have h := exec_preserves_invariants (exec initState (Op.publish 9 "A" "Qm1" 0))
    (Op.vote 7 1 true)
  ⟨(h.1 1 (by decide) (by decide)).2.1, (h.2.2.2 1 (by decide) (by decide)).1⟩

/-- Reachability invariant: every article slot that no publish has written
(slot 0, and every slot beyond `articleCount`) has price 0. Vote counters of
such a slot can be nonzero (votes on nonexistent ids write there), but only
`publishArticle` ever writes a price. -/
def PriceZeroOutside (s : State) : Prop :=
  ∀ i, i = 0 ∨ s.articleCount < i → (s.articles i).price = 0

lemma priceZeroOutside_step (s : State) (op : Op) (h : PriceZeroOutside s) :
    PriceZeroOutside (exec s op) := by
  cases op with
  | publish sender t hsh p =>
      intro i hi
      simp only [exec, publishArticle] at hi ⊢
      have hne : ¬(i = s.articleCount + 1) := by omega
      rw [if_neg hne]
      exact h i (by omega)
  | tip sender j v ok =>
      have htip : exec s (.tip sender j v ok) = s := by
        cases ok <;> simp [exec, tipWriter]
      rw [htip]
      exact h
  | purchase sender j v ok =>
      simp only [exec]
      rcases hE : purchaseArticle s sender j v ok with e | p
      · exact h
      · rcases p with ⟨s', ts⟩
        rw [purchase_ok_iff] at hE
        obtain ⟨-, -, -, hs', -⟩ := hE
        subst hs'
        intro i hi
        simp only [grantAccess] at hi ⊢
        exact h i hi
  | vote sender j up =>
      simp only [exec]
      rcases hE : voteArticle s sender j up with e | s'
      · exact h
      · rw [vote_ok_iff] at hE
        obtain ⟨-, -, hs'⟩ := hE
        subst hs'
        intro i hi
        simp only [voteResult] at hi ⊢
        by_cases hij : i = j
        · subst hij
          rw [if_pos rfl]
          have hp := h i hi
          cases up <;> simp [bumpVotes, hp]
        · rw [if_neg hij]
          exact h i hi

/-- In every reachable state, slot 0 and every slot beyond `articleCount`
hold a price-0 record. -/
lemma nonexistent_price_zero (s : State) (hs : Reachable s) : PriceZeroOutside s := by
  induction hs with
  | ini => intro i hi; rfl
  | step s op hr ih => exact priceZeroOutside_step s op ih

/-- Reachability invariant: `userVote` is only ever written together with
`hasVoted`, so a set `userVote` entry implies a set `hasVoted` entry. -/
def VoteFlagConsistent (s : State) : Prop :=
  ∀ i a, s.userVote i a = true → s.hasVoted i a = true

lemma voteFlagConsistent_step (s : State) (op : Op) (h : VoteFlagConsistent s) :
    VoteFlagConsistent (exec s op) := by
  cases op with
  | publish sender t hsh p =>
      intro i a hu
      simp only [exec, publishArticle] at hu ⊢
      exact h i a hu
  | tip sender j v ok =>
      have htip : exec s (.tip sender j v ok) = s := by
        cases ok <;> simp [exec, tipWriter]
      rw [htip]
      exact h
  | purchase sender j v ok =>
      simp only [exec]
      rcases hE : purchaseArticle s sender j v ok with e | p
      · exact h
      · rcases p with ⟨s', ts⟩
        rw [purchase_ok_iff] at hE
        obtain ⟨-, -, -, hs', -⟩ := hE
        subst hs'
        intro i a hu
        simp only [grantAccess] at hu ⊢
        exact h i a hu
  | vote sender j up =>
      simp only [exec]
      rcases hE : voteArticle s sender j up with e | s'
      · exact h
      · rw [vote_ok_iff] at hE
        obtain ⟨-, -, hs'⟩ := hE
        subst hs'
        intro i a hu
        simp only [voteResult] at hu ⊢
        by_cases hc : i = j ∧ a = sender
        · rw [if_pos hc]
        · rw [if_neg hc] at hu ⊢
          exact h i a hu

/-- In every reachable state a set `userVote` entry has its `hasVoted`
entry set too. -/
lemma userVote_imp_hasVoted (s : State) (hs : Reachable s) : VoteFlagConsistent s := by
  induction hs with
  | ini => intro i a hu; cases hu
  | step s op hr ih => exact voteFlagConsistent_step s op ih

/-- C8: in every reachable state, for an id that references no existing
article (id 0, or id beyond `articleCount`), the stored record has price 0,
so `checkAccess` is true for every account and `isArticleFree` is true. -/
theorem nonexistent_article_free_accessible (s : State) (hs : Reachable s) (articleId : Nat)
    (h : articleId = 0 ∨ s.articleCount < articleId) :
    (s.articles articleId).price = 0 ∧
    (∀ account, checkAccess s articleId account = true) ∧
    isArticleFree s articleId = true := by
  have hp := nonexistent_price_zero s hs articleId h
  exact ⟨hp, fun a => by simp [checkAccess, hp], by simp [isArticleFree, hp]⟩

/-- Witness for C8 at a concrete input: in the deployment state (0 articles),
id 5 is reported free and accessible to account 3. -/
theorem nonexistent_article_free_accessible_witness :
    checkAccess initState 5 3 = true ∧ isArticleFree initState 5 = true :=
  have h := nonexistent_article_free_accessible initState Reachable.ini 5
    (Or.inr (by decide))
  ⟨h.2.1 3, h.2.2⟩

/-- C9: `hasUserVoted` returns exactly the stored `hasVoted` flag; in any
reachable state `getUserVote` for an account that never voted returns false,
the same value a downvote leaves behind (a successful downvote stores
false in `userVote`); both are pure reads, embedded as functions that take
no state forward. -/
theorem vote_read_views (s : State) (articleId account : Nat) :
    hasUserVoted s articleId account = s.hasVoted articleId account ∧
    (Reachable s → s.hasVoted articleId account = false →
       getUserVote s articleId account = false) ∧
    (∀ s', voteArticle s account articleId false = .ok s' →
       getUserVote s' articleId account = false) := by
  refine ⟨rfl, ?_, ?_⟩
  · intro hs hv
    cases hu : s.userVote articleId account
    · exact hu
    · rw [userVote_imp_hasVoted s hs articleId account hu] at hv
      cases hv
  · intro s' hE
    rw [vote_ok_iff] at hE
    obtain ⟨-, -, hs'⟩ := hE
    subst hs'
    simp [getUserVote, voteResult]

/-- Witness for C9 at a concrete input: in the deployment state account 7
never voted on id 1, and `getUserVote` returns false there. -/
theorem vote_read_views_witness :
    hasUserVoted initState 1 7 = initState.hasVoted 1 7 ∧
    getUserVote initState 1 7 = false :=
  have h := vote_read_views initState 1 7
  ⟨h.1, h.2.1 Reachable.ini rfl⟩

/-- C10: in any reachable state, a vote on an id that references no existing
article (id 0 or beyond `articleCount`) by a caller who has not voted at that
id succeeds — the default price 0 makes it count as free — setting the
caller's `hasVoted` flag at that id and incrementing the chosen counter
stored at that nonexistent id. -/
theorem vote_nonexistent_succeeds (s : State) (hs : Reachable s) (caller articleId : Nat)
    (isUpvote : Bool)
    (h : articleId = 0 ∨ s.articleCount < articleId)
    (hv : s.hasVoted articleId caller = false) :
    voteArticle s caller articleId isUpvote = .ok (voteResult s caller articleId isUpvote) ∧
    (voteResult s caller articleId isUpvote).hasVoted articleId caller = true ∧
    (voteResult s caller articleId isUpvote).userVote articleId caller = isUpvote ∧
    (isUpvote = true →
       ((voteResult s caller articleId isUpvote).articles articleId).upvotes =
         (s.articles articleId).upvotes + 1) ∧
    (isUpvote = false →
       ((voteResult s caller articleId isUpvote).articles articleId).downvotes =
         (s.articles articleId).downvotes + 1) := by
  have hp := nonexistent_price_zero s hs articleId h
  refine ⟨?_, by simp [voteResult], by simp [voteResult], ?_, ?_⟩
  · rw [vote_ok_iff]
    exact ⟨Or.inl hp, hv, rfl⟩
  · intro hup
    subst hup
    simp [voteResult, bumpVotes]
  · intro hdn
    subst hdn
    simp [voteResult, bumpVotes]

/-- Witness for C10 at a concrete input: in the deployment state (0 articles)
an upvote by account 7 on the nonexistent id 3 succeeds and sets the vote
flag there. -/
theorem vote_nonexistent_succeeds_witness :
    voteArticle initState 7 3 true = .ok (voteResult initState 7 3 true) ∧
    (voteResult initState 7 3 true).hasVoted 3 7 = true :=
  have h := vote_nonexistent_succeeds initState Reachable.ini 7 3 true
    (Or.inr (by decide)) rfl
  ⟨h.1, h.2.1⟩

end Writestream
